import Mathlib

/-!
Verification of the host-side logic-analyzer driver (GW1NR-9 logic analyzer,
`examples/read_data.py`, `examples/set_sample_rate.py`, `examples/set_duty_cycle.py`).

The Python sources are shallowly embedded: floats are modelled as rationals,
Python `int(x)` (truncation toward zero) as `pyInt`, Python 3 `round`
(round-half-to-even) as `pyRound`, machine-width clamps are explicit, and
fallible operations (`struct.pack` range errors, `ZeroDivisionError`) return
`Option`.
-/

/-- Python `int(x)` applied to a number: truncation toward zero.
`Int.tdiv` is T-division, so `num.tdiv den` truncates toward zero. -/
def pyInt (q : ℚ) : ℤ := q.num.tdiv (q.den : ℤ)

/-- Python 3 `round(x)` on a number: round half to even (banker's rounding). -/
def pyRound (q : ℚ) : ℤ :=
  let f := ⌊q⌋
  let r := q - (f : ℚ)
  if r < 1/2 then f
  else if 1/2 < r then f + 1
  else if f % 2 = 0 then f else f + 1

/-- Modelled from the spec's words (`divider = clamp(round(27_000_000 / target_hz), 1, 2^32-1)`):
generic rounding to the nearest integer, half away from zero.  Used only to compare
the spec's claimed formula with the implementations. -/
def spec_round (q : ℚ) : ℤ := ⌊q + 1/2⌋

/-- System clock of the FPGA, Hz (`SYS_CLK_FREQ` in all source files). -/
def SYS_CLK_FREQ : ℕ := 27000000

/-- Device capture capacity in bytes (`BUFFER_SIZE` in read_data.py). -/
def BUFFER_SIZE : ℕ := 49152

/-- Channel count (`CHANNELS` in read_data.py). -/
def CHANNELS : ℕ := 8

namespace read_data

/-- `set_sample_rate` of read_data.py, the pure part: from a target rate it computes
`divider = round(27_000_000 / target)` clamped into `[1, 0xFFFFFFFF]`, and the realized
rate `27_000_000 / divider`.  Returns `(divider, actual_rate)`. -/
def set_sample_rate (target_sample_rate_hz : ℚ) : ℤ × ℚ :=
  let divider := pyRound ((SYS_CLK_FREQ : ℚ) / target_sample_rate_hz)
  let divider := max 1 (min divider 4294967295)
  (divider, (SYS_CLK_FREQ : ℚ) / (divider : ℚ))

/-- `set_duty_cycle` of read_data.py, the pure part: `period_cycles = int(27e6/target)`,
`duty_high_cycles = max(1, min(int(period*ratio), period-1))`, realized duty
`duty_high_cycles / period_cycles`.  The source divides by `period_cycles` at the end,
which raises `ZeroDivisionError` when `period_cycles = 0`; that case is `none`.
Returns `(actual_duty, duty_high_cycles)`. -/
def set_duty_cycle (target_freq_hz : ℚ) (duty_ratio : ℚ) : Option (ℚ × ℤ) :=
  let period_cycles := pyInt ((SYS_CLK_FREQ : ℚ) / target_freq_hz)
  let duty_high_cycles := pyInt ((period_cycles : ℚ) * duty_ratio)
  let duty_high_cycles := max 1 (min duty_high_cycles (period_cycles - 1))
  if period_cycles = 0 then none
  else some ((duty_high_cycles : ℚ) / (period_cycles : ℚ), duty_high_cycles)

/-- The trigger-configuration payload built by `configure_trigger` of read_data.py and
sent after opcode 0x05: `struct.pack('<BBB', type, mask, pattern)` when
`trigger_type == 0 and trigger_mask == 0` (immediate trigger), else
`struct.pack('<BBBH', type, mask, pattern, pre_trigger_count)` with the two-byte
pre-trigger count little-endian.  `struct.pack` raises on out-of-range fields;
those cases are `none`. -/
def configure_trigger_payload (trigger_type trigger_mask trigger_pattern
    pre_trigger_count : ℕ) : Option (List ℕ) :=
  if trigger_type < 256 ∧ trigger_mask < 256 ∧ trigger_pattern < 256 then
    if trigger_type = 0 ∧ trigger_mask = 0 then
      some [trigger_type, trigger_mask, trigger_pattern]
    else if pre_trigger_count < 65536 then
      some [trigger_type, trigger_mask, trigger_pattern,
        pre_trigger_count % 256, pre_trigger_count / 256]
    else none
  else none

end read_data

namespace set_sample_rate_py

/-- `set_sample_rate` of set_sample_rate.py, the pure part: unlike read_data.py it
computes `divider = int(27_000_000 / target)` — truncation, not rounding — then clamps
into `[1, 0xFFFFFFFF]`.  Returns `(divider, actual_rate)`. -/
def set_sample_rate (target_sample_rate_hz : ℚ) : ℤ × ℚ :=
  let divider := pyInt ((SYS_CLK_FREQ : ℚ) / target_sample_rate_hz)
  let divider := max 1 (min divider 4294967295)
  (divider, (SYS_CLK_FREQ : ℚ) / (divider : ℚ))

end set_sample_rate_py

namespace set_duty_cycle_py

/-- `set_duty_cycle` of set_duty_cycle.py: textually the same computation as
`read_data.set_duty_cycle`. -/
def set_duty_cycle (target_freq_hz : ℚ) (duty_ratio : ℚ) : Option (ℚ × ℤ) :=
  let period_cycles := pyInt ((SYS_CLK_FREQ : ℚ) / target_freq_hz)
  let duty_high_cycles := pyInt ((period_cycles : ℚ) * duty_ratio)
  let duty_high_cycles := max 1 (min duty_high_cycles (period_cycles - 1))
  if period_cycles = 0 then none
  else some ((duty_high_cycles : ℚ) / (period_cycles : ℚ), duty_high_cycles)

end set_duty_cycle_py

/-- On nonnegative rationals, Python truncation agrees with the floor. -/
theorem pyInt_eq_floor (q : ℚ) (h : 0 ≤ q) : pyInt q = ⌊q⌋ := by
  rw [pyInt, Rat.floor_def, Int.tdiv_eq_ediv (Rat.num_nonneg.mpr h) (by positivity)]

example : pyInt ((27000000 : ℚ) / 10000000) = 2 := by
  rw [pyInt_eq_floor _ (by norm_num)]
  norm_num [Int.floor_eq_iff]

example : pyRound ((27000000 : ℚ) / 10000000) = 3 := by
  have h : ⌊(27000000 : ℚ) / 10000000⌋ = 2 := by norm_num [Int.floor_eq_iff]
  rw [pyRound]
  rw [h]
  norm_num

example : spec_round ((27000000 : ℚ) / 10000000) = 3 := by
  rw [spec_round]
  norm_num [Int.floor_eq_iff]

example : pyRound ((5 : ℚ) / 2) = 2 := by
  have h : ⌊(5 : ℚ) / 2⌋ = 2 := by norm_num [Int.floor_eq_iff]
  rw [pyRound, h]
  norm_num

/-- Banker's rounding lands on the floor, or on the floor plus one and then the
argument lies strictly above its floor. -/
theorem pyRound_cases (q : ℚ) :
    pyRound q = ⌊q⌋ ∨ (pyRound q = ⌊q⌋ + 1 ∧ (⌊q⌋ : ℚ) < q) := by
  rw [pyRound]
  split_ifs with h1 h2 h3
  · exact Or.inl rfl
  · exact Or.inr ⟨rfl, by linarith⟩
  · exact Or.inl rfl
  · exact Or.inr ⟨rfl, by linarith⟩

/-- The half-open quantization step of the sample-rate grid around a target rate:
the gap between the realized rates of the two dividers bracketing
`27_000_000 / target`. -/
def quantizationStep (target : ℚ) : ℚ :=
  let q := (SYS_CLK_FREQ : ℚ) / target
  (SYS_CLK_FREQ : ℚ) / (⌊q⌋ : ℚ) - (SYS_CLK_FREQ : ℚ) / ((⌊q⌋ : ℚ) + 1)

theorem SYS_CLK_FREQ_q : (SYS_CLK_FREQ : ℚ) = 27000000 := by norm_num [SYS_CLK_FREQ]

/-- Any divider taken from the pair bracketing `q = 27e6/target` realizes a rate
within one quantization step of `27e6/q`. -/
theorem realized_within (q : ℚ) (hq : 2 ≤ q) (d : ℤ)
    (hd1 : ⌊q⌋ ≤ d) (hd2 : d ≤ ⌊q⌋ + 1) :
    |(27000000 : ℚ) / (d : ℚ) - 27000000 / q| ≤
      (27000000 : ℚ) / (⌊q⌋ : ℚ) - 27000000 / ((⌊q⌋ : ℚ) + 1) := by
  have hf2 : (2 : ℤ) ≤ ⌊q⌋ := Int.le_floor.mpr (by exact_mod_cast hq)
  have hf0 : (0 : ℚ) < (⌊q⌋ : ℚ) := by exact_mod_cast lt_of_lt_of_le (by norm_num) hf2
  have hd0 : (0 : ℚ) < (d : ℚ) := by
    have : (0 : ℤ) < d := lt_of_lt_of_le (by omega) hd1
    exact_mod_cast this
  have hq0 : (0 : ℚ) < q := lt_of_lt_of_le (by norm_num) hq
  have hfle : (⌊q⌋ : ℚ) ≤ q := Int.floor_le q
  have hqlt : q ≤ (⌊q⌋ : ℚ) + 1 := le_of_lt (Int.lt_floor_add_one q)
  have hdleQ : ((⌊q⌋ : ℚ)) ≤ (d : ℚ) := by exact_mod_cast hd1
  have hdgeQ : (d : ℚ) ≤ (⌊q⌋ : ℚ) + 1 := by exact_mod_cast hd2
  have h1 : (27000000 : ℚ) / (d : ℚ) ≤ 27000000 / (⌊q⌋ : ℚ) := by gcongr
  have h2 : (27000000 : ℚ) / ((⌊q⌋ : ℚ) + 1) ≤ 27000000 / (d : ℚ) := by gcongr
  have h3 : (27000000 : ℚ) / q ≤ 27000000 / (⌊q⌋ : ℚ) := by gcongr
  have h4 : (27000000 : ℚ) / ((⌊q⌋ : ℚ) + 1) ≤ 27000000 / q := by gcongr
  rw [abs_sub_le_iff]
  constructor <;> linarith

/-- C1 (counterexample): the claim says both implementations compute
`divider = clamp(round(27_000_000/target), 1, 2^32-1)` and realize a rate within one
quantization step for every target in (0, 13.5 MHz].  At 10 MHz the set_sample_rate.py
implementation truncates `2.7` to divider 2 while the claimed rounding formula gives 3;
and at 0.001 Hz the saturation clamp leaves the realized rate far more than one
quantization step away from the target. -/
theorem C1_counterexample :
    (read_data.set_sample_rate 10000000).1 = 3 ∧
    (set_sample_rate_py.set_sample_rate 10000000).1 = 2 ∧
    max 1 (min (spec_round ((27000000 : ℚ) / 10000000)) 4294967295) = 3 ∧
    (set_sample_rate_py.set_sample_rate (1/1000)).1 = 4294967295 ∧
    quantizationStep (1/1000) <
      |(set_sample_rate_py.set_sample_rate (1/1000)).2 - 1/1000| := by
  have e1 : ((SYS_CLK_FREQ : ℚ)) / 10000000 = 27/10 := by
    norm_num [SYS_CLK_FREQ]
  have hfloor : ⌊(27 : ℚ)/10⌋ = 2 := by norm_num [Int.floor_eq_iff]
  have hround : pyRound ((27 : ℚ)/10) = 3 := by
    rw [pyRound, hfloor]; norm_num
  have hint : pyInt ((27 : ℚ)/10) = 2 := by
    rw [pyInt_eq_floor _ (by norm_num), hfloor]
  have e2 : ((SYS_CLK_FREQ : ℚ)) / (1/1000) = 27000000000 := by
    norm_num [SYS_CLK_FREQ]
  have hint2 : pyInt ((27000000000 : ℚ)) = 27000000000 := by
    rw [pyInt_eq_floor _ (by norm_num)]
    exact_mod_cast Int.floor_intCast (α := ℚ) 27000000000
  refine ⟨?_, ?_, ?_, ?_, ?_⟩
  · simp only [read_data.set_sample_rate, e1, hround]
    norm_num
  · simp only [set_sample_rate_py.set_sample_rate, e1, hint]
    norm_num
  · have : (27000000 : ℚ) / 10000000 = 27/10 := by norm_num
    rw [this, spec_round]
    norm_num [Int.floor_eq_iff]
  · have hclamp : (1 : ℤ) ⊔ (27000000000 ⊓ 4294967295) = 4294967295 := by decide
    simp only [set_sample_rate_py.set_sample_rate, e2, hint2, hclamp]
  · have hfloor2 : ⌊(27000000000 : ℚ)⌋ = 27000000000 :=
      Int.floor_intCast (α := ℚ) 27000000000
    have hclamp : (1 : ℤ) ⊔ (27000000000 ⊓ 4294967295) = 4294967295 := by decide
    have e2n : ((27000000 : ℚ)) / (1/1000) = 27000000000 := by norm_num
    simp only [set_sample_rate_py.set_sample_rate, quantizationStep, SYS_CLK_FREQ_q]
    rw [e2n, hint2, hfloor2, hclamp]
    rw [abs_of_pos (by norm_num)]
    norm_num

/-- C1 (amended): for targets in (0, 13.5 MHz] whose ideal divider `27e6/target` does
not exceed the 32-bit saturation bound, read_data.py's encoder computes the banker's
rounding of `27e6/target` while set_sample_rate.py's computes its truncation; both
dividers lie in [1, 2^32-1] and both realized rates `27e6/divider` are within one
quantization step of the target. -/
theorem C1_amended (T : ℚ) (h0 : 0 < T) (h1 : T ≤ 13500000)
    (h2 : (27000000 : ℚ) / T ≤ 4294967295) :
    (read_data.set_sample_rate T).1 = pyRound ((27000000 : ℚ) / T) ∧
    (set_sample_rate_py.set_sample_rate T).1 = ⌊(27000000 : ℚ) / T⌋ ∧
    1 ≤ (read_data.set_sample_rate T).1 ∧
    (read_data.set_sample_rate T).1 ≤ 4294967295 ∧
    1 ≤ (set_sample_rate_py.set_sample_rate T).1 ∧
    (set_sample_rate_py.set_sample_rate T).1 ≤ 4294967295 ∧
    |(read_data.set_sample_rate T).2 - T| ≤ quantizationStep T ∧
    |(set_sample_rate_py.set_sample_rate T).2 - T| ≤ quantizationStep T := by
  have hq2 : (2 : ℚ) ≤ 27000000 / T := by
    rw [le_div_iff₀ h0]; linarith
  have hq0 : (0 : ℚ) ≤ 27000000 / T := by linarith
  have hf2 : (2 : ℤ) ≤ ⌊(27000000 : ℚ) / T⌋ := Int.le_floor.mpr (by exact_mod_cast hq2)
  have hcap : ⌈(27000000 : ℚ) / T⌉ ≤ (4294967295 : ℤ) := by
    rw [Int.ceil_le]; exact_mod_cast h2
  have hfc : ⌊(27000000 : ℚ) / T⌋ ≤ ⌈(27000000 : ℚ) / T⌉ := Int.floor_le_ceil _
  have hR1 : ⌊(27000000 : ℚ) / T⌋ ≤ pyRound ((27000000 : ℚ) / T) := by
    rcases pyRound_cases ((27000000 : ℚ) / T) with h | ⟨h, _⟩ <;> omega
  have hR2 : pyRound ((27000000 : ℚ) / T) ≤ ⌊(27000000 : ℚ) / T⌋ + 1 := by
    rcases pyRound_cases ((27000000 : ℚ) / T) with h | ⟨h, _⟩ <;> omega
  have hRcap : pyRound ((27000000 : ℚ) / T) ≤ 4294967295 := by
    rcases pyRound_cases ((27000000 : ℚ) / T) with h | ⟨h, hlt⟩
    · omega
    · have hlc : ⌊(27000000 : ℚ) / T⌋ < ⌈(27000000 : ℚ) / T⌉ := by
        have hc := Int.le_ceil ((27000000 : ℚ) / T)
        exact_mod_cast lt_of_lt_of_le hlt hc
      omega
  have hS : pyInt ((27000000 : ℚ) / T) = ⌊(27000000 : ℚ) / T⌋ := pyInt_eq_floor _ hq0
  have hScap : ⌊(27000000 : ℚ) / T⌋ ≤ (4294967295 : ℤ) := le_trans hfc hcap
  have hclampR : (1 : ℤ) ⊔ (pyRound ((27000000 : ℚ) / T) ⊓ 4294967295)
      = pyRound ((27000000 : ℚ) / T) := by
    rw [min_eq_left hRcap, max_eq_right (by omega)]
  have hclampS : (1 : ℤ) ⊔ (pyInt ((27000000 : ℚ) / T) ⊓ 4294967295)
      = ⌊(27000000 : ℚ) / T⌋ := by
    rw [hS, min_eq_left hScap, max_eq_right (by omega)]
  have hQT : (27000000 : ℚ) / ((27000000 : ℚ) / T) = T := by
    field_simp
  have hRdef : read_data.set_sample_rate T
      = (pyRound ((27000000 : ℚ) / T),
         27000000 / ((pyRound ((27000000 : ℚ) / T) : ℤ) : ℚ)) := by
    simp only [read_data.set_sample_rate, SYS_CLK_FREQ_q, hclampR]
  have hSdef : set_sample_rate_py.set_sample_rate T
      = (⌊(27000000 : ℚ) / T⌋, 27000000 / ((⌊(27000000 : ℚ) / T⌋ : ℤ) : ℚ)) := by
    simp only [set_sample_rate_py.set_sample_rate, SYS_CLK_FREQ_q, hclampS]
  have hstep : quantizationStep T
      = (27000000 : ℚ) / ((⌊(27000000 : ℚ) / T⌋ : ℤ) : ℚ)
        - 27000000 / (((⌊(27000000 : ℚ) / T⌋ : ℤ) : ℚ) + 1) := by
    simp only [quantizationStep, SYS_CLK_FREQ_q]
  have hbR := realized_within ((27000000 : ℚ) / T) hq2 (pyRound ((27000000 : ℚ) / T)) hR1 hR2
  have hbS := realized_within ((27000000 : ℚ) / T) hq2 ⌊(27000000 : ℚ) / T⌋ le_rfl (by omega)
  rw [hQT] at hbR hbS
  refine ⟨?_, ?_, ?_, ?_, ?_, ?_, ?_, ?_⟩
  · rw [hRdef]
  · rw [hSdef]
  · rw [hRdef]; omega
  · rw [hRdef]; exact hRcap
  · rw [hSdef]; omega
  · rw [hSdef]; exact hScap
  · rw [hRdef, hstep]; exact hbR
  · rw [hSdef, hstep]; exact hbS

/-- C1 (witness): the amended theorem applied at the concrete target 10 MHz. -/
theorem C1_witness :
    (read_data.set_sample_rate 10000000).1 = pyRound ((27000000 : ℚ) / 10000000) ∧
    (set_sample_rate_py.set_sample_rate 10000000).1 = ⌊(27000000 : ℚ) / 10000000⌋ ∧
    1 ≤ (read_data.set_sample_rate 10000000).1 ∧
    (read_data.set_sample_rate 10000000).1 ≤ 4294967295 ∧
    1 ≤ (set_sample_rate_py.set_sample_rate 10000000).1 ∧
    (set_sample_rate_py.set_sample_rate 10000000).1 ≤ 4294967295 ∧
    |(read_data.set_sample_rate 10000000).2 - 10000000| ≤ quantizationStep 10000000 ∧
    |(set_sample_rate_py.set_sample_rate 10000000).2 - 10000000| ≤
      quantizationStep 10000000 :=
  C1_amended 10000000 (by norm_num) (by norm_num) (by norm_num)

/-- Both duty-cycle implementations are the same computation. -/
theorem duty_impls_eq (T r : ℚ) :
    set_duty_cycle_py.set_duty_cycle T r = read_data.set_duty_cycle T r := rfl

/-- C5 (counterexample): at `target_hz = 27 MHz` (which is > 0) and ratio 1/2, the
period is a single clock cycle, the clamp forces `high_cycles = 1`, and the realized
duty ratio is exactly 1, i.e. 100 %, in both implementations — contradicting the
claim that the realized ratio is never 100 %. -/
theorem C5_counterexample :
    read_data.set_duty_cycle 27000000 (1/2) = some (1, 1) ∧
    set_duty_cycle_py.set_duty_cycle 27000000 (1/2) = some (1, 1) := by
  have e1 : ((SYS_CLK_FREQ : ℚ)) / 27000000 = 1 := by norm_num [SYS_CLK_FREQ]
  have hint1 : pyInt ((1 : ℚ)) = 1 := by
    rw [pyInt_eq_floor _ (by norm_num)]; exact Int.floor_one
  have e2 : (((1 : ℤ) : ℚ)) * (1/2) = 1/2 := by norm_num
  have hint2 : pyInt ((1 : ℚ)/2) = 0 := by
    rw [pyInt_eq_floor _ (by norm_num)]
    norm_num [Int.floor_eq_iff]
  have hmain : read_data.set_duty_cycle 27000000 (1/2) = some (1, 1) := by
    simp only [read_data.set_duty_cycle, e1, hint1, e2, hint2]
    norm_num
  exact ⟨hmain, by rw [duty_impls_eq]; exact hmain⟩

/-- C5 (amended): for `target_hz` in (0, 13.5 MHz] — so that the integer period
`int(27e6/target)` is at least 2 — and any ratio in [0,1], both implementations agree
and produce `high_cycles` clamped into `[1, period-1]`, so the realized duty ratio is
strictly between 0 and 1 (never 0 % and never 100 %). -/
theorem C5_amended (T r : ℚ) (h0 : 0 < T) (h1 : T ≤ 13500000)
    (hr0 : 0 ≤ r) (hr1 : r ≤ 1) :
    ∃ d h : ℤ, ∃ duty : ℚ,
      read_data.set_duty_cycle T r = some (duty, h) ∧
      set_duty_cycle_py.set_duty_cycle T r = some (duty, h) ∧
      d = pyInt ((27000000 : ℚ) / T) ∧
      1 ≤ h ∧ h ≤ d - 1 ∧
      duty = (h : ℚ) / (d : ℚ) ∧ 0 < duty ∧ duty < 1 := by
  have hq2 : (2 : ℚ) ≤ 27000000 / T := by rw [le_div_iff₀ h0]; linarith
  have hq0 : (0 : ℚ) ≤ 27000000 / T := by linarith
  have hP2 : (2 : ℤ) ≤ pyInt ((27000000 : ℚ) / T) := by
    rw [pyInt_eq_floor _ hq0]
    exact Int.le_floor.mpr (by exact_mod_cast hq2)
  have hP0 : ¬ pyInt ((27000000 : ℚ) / T) = 0 := by omega
  have hH1 : (1 : ℤ) ≤ max 1 (min (pyInt ((pyInt ((27000000 : ℚ) / T) : ℚ) * r))
      (pyInt ((27000000 : ℚ) / T) - 1)) := le_max_left _ _
  have hHle : max 1 (min (pyInt ((pyInt ((27000000 : ℚ) / T) : ℚ) * r))
      (pyInt ((27000000 : ℚ) / T) - 1)) ≤ pyInt ((27000000 : ℚ) / T) - 1 :=
    max_le (by omega) (min_le_right _ _)
  have hPQ : (0 : ℚ) < ((pyInt ((27000000 : ℚ) / T) : ℤ) : ℚ) := by
    exact_mod_cast (by omega : (0 : ℤ) < pyInt ((27000000 : ℚ) / T))
  have hd0 : (0 : ℚ) < ((max 1 (min (pyInt ((pyInt ((27000000 : ℚ) / T) : ℚ) * r))
        (pyInt ((27000000 : ℚ) / T) - 1)) : ℤ) : ℚ) / ((pyInt ((27000000 : ℚ) / T) : ℤ) : ℚ) := by
    apply div_pos _ hPQ
    exact_mod_cast lt_of_lt_of_le (by norm_num) hH1
  have hd1 : ((max 1 (min (pyInt ((pyInt ((27000000 : ℚ) / T) : ℚ) * r))
        (pyInt ((27000000 : ℚ) / T) - 1)) : ℤ) : ℚ) / ((pyInt ((27000000 : ℚ) / T) : ℤ) : ℚ) < 1 := by
    rw [div_lt_one hPQ]
    have hc : ((max 1 (min (pyInt ((pyInt ((27000000 : ℚ) / T) : ℚ) * r))
        (pyInt ((27000000 : ℚ) / T) - 1)) : ℤ) : ℚ)
        ≤ ((pyInt ((27000000 : ℚ) / T) : ℤ) : ℚ) - 1 := by exact_mod_cast hHle
    linarith
  have hunfold : read_data.set_duty_cycle T r =
      some (((max 1 (min (pyInt ((pyInt ((27000000 : ℚ) / T) : ℚ) * r))
        (pyInt ((27000000 : ℚ) / T) - 1)) : ℤ) : ℚ) / ((pyInt ((27000000 : ℚ) / T) : ℤ) : ℚ),
        max 1 (min (pyInt ((pyInt ((27000000 : ℚ) / T) : ℚ) * r))
          (pyInt ((27000000 : ℚ) / T) - 1))) := by
    simp only [read_data.set_duty_cycle, SYS_CLK_FREQ_q]
    rw [if_neg hP0]
  exact ⟨pyInt ((27000000 : ℚ) / T),
    max 1 (min (pyInt ((pyInt ((27000000 : ℚ) / T) : ℚ) * r)) (pyInt ((27000000 : ℚ) / T) - 1)),
    _, hunfold, by rw [duty_impls_eq]; exact hunfold, rfl, hH1, hHle, rfl, hd0, hd1⟩

/-- C5 (witness): the amended theorem applied at the concrete target 10 kHz, ratio 1/2. -/
theorem C5_witness :
    ∃ d h : ℤ, ∃ duty : ℚ,
      read_data.set_duty_cycle 10000 (1/2) = some (duty, h) ∧
      set_duty_cycle_py.set_duty_cycle 10000 (1/2) = some (duty, h) ∧
      d = pyInt ((27000000 : ℚ) / 10000) ∧
      1 ≤ h ∧ h ≤ d - 1 ∧
      duty = (h : ℚ) / (d : ℚ) ∧ 0 < duty ∧ duty < 1 :=
  C5_amended 10000 (1/2) (by norm_num) (by norm_num) (by norm_num) (by norm_num)

/-- C2: for in-range fields, the trigger-config payload is
`kind || mask || pattern`, followed by the 2-byte little-endian pre-trigger count
exactly when the trigger is not the immediate one (`kind = 0` with `mask = 0`);
hence the payload length is 3 in the immediate case and 5 otherwise. -/
theorem C2_trigger_payload (t m p pre : ℕ) (ht : t < 256) (hm : m < 256)
    (hp : p < 256) (hpre : pre < 65536) :
    read_data.configure_trigger_payload t m p pre =
      some (if t = 0 ∧ m = 0 then [t, m, p] else [t, m, p, pre % 256, pre / 256]) ∧
    ((read_data.configure_trigger_payload t m p pre).getD []).length =
      (if t = 0 ∧ m = 0 then 3 else 5) := by
  by_cases h : t = 0 ∧ m = 0
  · simp [read_data.configure_trigger_payload, ht, hm, hp, hpre, h]
  · simp [read_data.configure_trigger_payload, ht, hm, hp, hpre, h]

/-- C2 (witness): the payload theorem applied at the immediate trigger (0,0,0,0) and
at a non-immediate trigger (rising edge on all channels, 1000 pre-trigger samples). -/
theorem C2_witness :
    (read_data.configure_trigger_payload 0 0 0 0 =
      some (if (0 : ℕ) = 0 ∧ (0 : ℕ) = 0 then [0, 0, 0] else [0, 0, 0, 0 % 256, 0 / 256]) ∧
     ((read_data.configure_trigger_payload 0 0 0 0).getD []).length =
      (if (0 : ℕ) = 0 ∧ (0 : ℕ) = 0 then 3 else 5)) ∧
    (read_data.configure_trigger_payload 0 255 0 1000 =
      some (if (0 : ℕ) = 0 ∧ (255 : ℕ) = 0 then [0, 255, 0]
            else [0, 255, 0, 1000 % 256, 1000 / 256]) ∧
     ((read_data.configure_trigger_payload 0 255 0 1000).getD []).length =
      (if (0 : ℕ) = 0 ∧ (255 : ℕ) = 0 then 3 else 5)) :=
  ⟨C2_trigger_payload 0 0 0 0 (by decide) (by decide) (by decide) (by decide),
   C2_trigger_payload 0 255 0 1000 (by decide) (by decide) (by decide) (by decide)⟩

namespace read_data

/-- One pass of the inner loop of `parse_channels`:
`for ch in range(CHANNELS): channels[ch].append((byte >> ch) & 1)` — append bit `ch`
of `byte` to each channel plane in turn. -/
def appendBits (byte : ℕ) : ℕ → List (List ℕ) → List (List ℕ)
  | _, [] => []
  | ch, plane :: rest => (plane ++ [(byte >>> ch) &&& 1]) :: appendBits byte (ch + 1) rest

/-- `parse_channels` of read_data.py: start from `CHANNELS` empty planes and, for each
byte of the capture buffer, append each channel's bit to that channel's plane. -/
def parse_channels (data : List ℕ) : List (List ℕ) :=
  data.foldl (fun channels byte => appendBits byte 0 channels) (List.replicate CHANNELS [])

end read_data

/-- The channel planes of `data` for the `n` channels `ch, ch+1, …, ch+n-1`: channel
`c`'s bit at a sample is `(byte >> c) & 1` (the spec's description of `demux`). -/
def planesFrom (data : List ℕ) (ch n : ℕ) : List (List ℕ) :=
  (List.range' ch n).map (fun c => data.map (fun b => (b >>> c) &&& 1))

theorem appendBits_planesFrom (b : ℕ) (data : List ℕ) :
    ∀ n ch, read_data.appendBits b ch (planesFrom data ch n) = planesFrom (data ++ [b]) ch n := by
  intro n
  induction n with
  | zero => intro ch; rfl
  | succ n ih =>
    intro ch
    rw [planesFrom, planesFrom, List.range'_succ, List.map_cons, List.map_cons,
      read_data.appendBits]
    congr 1
    · rw [List.map_append]
      rfl
    · exact ih (ch + 1)

theorem foldl_appendBits (rest : List ℕ) :
    ∀ data : List ℕ,
      rest.foldl (fun channels byte => read_data.appendBits byte 0 channels)
        (planesFrom data 0 8) = planesFrom (data ++ rest) 0 8 := by
  induction rest with
  | nil => intro data; simp
  | cons b bs ih =>
    intro data
    rw [List.foldl_cons, appendBits_planesFrom b data 8 0, ih (data ++ [b])]
    simp

/-- Closed form of `parse_channels`: channel `c`'s plane is
`data.map (fun b => (b >>> c) &&& 1)` for `c = 0, …, 7`. -/
theorem parse_channels_eq (data : List ℕ) :
    read_data.parse_channels data = planesFrom data 0 8 := by
  have hbase : List.replicate CHANNELS ([] : List ℕ) = planesFrom [] 0 8 := by rfl
  rw [read_data.parse_channels, hbase, foldl_appendBits data []]
  rfl

/-- Recombine channel planes into bytes, channel 0 as the least significant bit:
each sample's byte is rebuilt in Horner form `bit₀ + 2·(bit₁ + 2·(… ))`. -/
def recombine (planes : List (List ℕ)) : List ℕ :=
  planes.foldr (fun plane acc => List.zipWith (fun b r => b + 2 * r) plane acc)
    ((planes.headD []).map (fun _ => 0))

theorem zipWith_same_map {α β γ δ : Type} (f : β → γ → δ) (g : α → β) (h : α → γ) :
    ∀ l : List α, List.zipWith f (l.map g) (l.map h) = l.map (fun x => f (g x) (h x)) := by
  intro l
  induction l with
  | nil => rfl
  | cons a l ih => simp [ih]

theorem horner_planesFrom (data : List ℕ) :
    ∀ n ch,
      (planesFrom data ch n).foldr
        (fun plane acc => List.zipWith (fun b r => b + 2 * r) plane acc)
        (data.map (fun _ => 0))
      = data.map (fun b => (b >>> ch) % 2 ^ n) := by
  intro n
  induction n with
  | zero =>
    intro ch
    rw [planesFrom]
    rw [show List.range' ch 0 = [] from rfl, List.map_nil, List.foldr_nil]
    exact List.map_congr_left (fun b _ => by simp [Nat.mod_one])
  | succ n ih =>
    intro ch
    rw [planesFrom, List.range'_succ, List.map_cons, List.foldr_cons]
    have hrec := ih (ch + 1)
    rw [planesFrom] at hrec
    rw [hrec, zipWith_same_map]
    apply List.map_congr_left
    intro b _
    have h1 : b >>> ch &&& 1 = (b >>> ch) % 2 := Nat.and_one_is_mod _
    have h2 : b >>> (ch + 1) = b >>> ch / 2 := Nat.shiftRight_succ b ch
    have h3 : (b >>> ch) % 2 ^ (n + 1) = (b >>> ch) % 2 + 2 * (b >>> ch / 2 % 2 ^ n) := by
      rw [pow_succ, mul_comm (2 ^ n) 2, Nat.mod_mul]
    rw [h1, h2, h3]

theorem recombine_planesFrom (data : List ℕ) (hb : ∀ b ∈ data, b < 256) :
    recombine (planesFrom data 0 8) = data := by
  have hbase : ((planesFrom data 0 8).headD []).map (fun _ => (0 : ℕ))
      = data.map (fun _ => 0) := by
    rw [planesFrom]
    rw [show List.range' 0 8 = 0 :: List.range' 1 7 from rfl]
    rw [List.map_cons, List.headD_cons, List.map_map]
    rfl
  rw [recombine, hbase, horner_planesFrom data 8 0]
  have : ∀ b ∈ data, b >>> 0 % 2 ^ 8 = b := by
    intro b hbmem
    have : b < 256 := hb b hbmem
    simp [Nat.shiftRight_zero]
    omega
  calc data.map (fun b => b >>> 0 % 2 ^ 8) = data.map id := List.map_congr_left this
    _ = data := List.map_id data

/-- C7: demultiplexing is a bijective reshaping.  `parse_channels` produces, for each
channel `c < 8`, the plane `data.map (fun b => (b >>> c) &&& 1)`; every plane has the
input's length; and recombining bit `c` of every channel at each sample reconstructs
the original byte sequence exactly. -/
theorem C7_parse_channels_bijective (data : List ℕ) (hb : ∀ b ∈ data, b < 256) :
    read_data.parse_channels data = planesFrom data 0 8 ∧
    (read_data.parse_channels data).map List.length = List.replicate 8 data.length ∧
    recombine (read_data.parse_channels data) = data := by
  refine ⟨parse_channels_eq data, ?_, ?_⟩
  · rw [parse_channels_eq data, List.eq_replicate_iff]
    constructor
    · rw [planesFrom, List.length_map, List.length_map, List.length_range']
    · intro b hbm
      rw [planesFrom, List.map_map] at hbm
      rcases List.mem_map.mp hbm with ⟨c, _, rfl⟩
      simp [List.length_map]
  · rw [parse_channels_eq data]
    exact recombine_planesFrom data hb

/-- C7 (witness): the bijective-reshaping theorem applied to the concrete capture
buffer `[165, 3, 0, 255]`. -/
theorem C7_witness :
    read_data.parse_channels [165, 3, 0, 255] = planesFrom [165, 3, 0, 255] 0 8 ∧
    (read_data.parse_channels [165, 3, 0, 255]).map List.length =
      List.replicate 8 ([165, 3, 0, 255] : List ℕ).length ∧
    recombine (read_data.parse_channels [165, 3, 0, 255]) = [165, 3, 0, 255] :=
  C7_parse_channels_bijective [165, 3, 0, 255] (by decide)

/-- C9: on any input byte sequence, `parse_channels` returns exactly 8 planes, and
every element of every plane is 0 or 1. -/
theorem C9_parse_channels_invariants (data : List ℕ) :
    (read_data.parse_channels data).length = 8 ∧
    ∀ plane ∈ read_data.parse_channels data, ∀ x ∈ plane, x = 0 ∨ x = 1 := by
  rw [parse_channels_eq data]
  constructor
  · rw [planesFrom, List.length_map, List.length_range']
  · intro plane hp x hx
    rw [planesFrom] at hp
    rcases List.mem_map.mp hp with ⟨c, _, rfl⟩
    rcases List.mem_map.mp hx with ⟨b, _, rfl⟩
    rw [Nat.and_one_is_mod]
    omega

namespace read_data

/-- The edge scan of `calculate_signal_frequency`: walking the plane with the previous
value at hand, record `(i, 1)` at a rising change and `(i, 0)` at a falling change. -/
def detectEdgesAux : ℕ → ℕ → List ℕ → List (ℕ × ℕ)
  | _, _, [] => []
  | prev, i, x :: rest =>
      (if x ≠ prev then [(i, if prev < x then 1 else 0)] else [])
        ++ detectEdgesAux x (i + 1) rest

/-- The `(index, direction)` edge list of a plane: `for i in range(1, len(data))`,
an entry wherever `data[i] != data[i-1]`, direction 1 when rising, 0 when falling. -/
def detectEdges : List ℕ → List (ℕ × ℕ)
  | [] => []
  | x :: rest => detectEdgesAux x 1 rest

end read_data

/-- Indices of rising edges (`rising_edges` in the source: the edge indices whose
edge type is 1). -/
def risingEdges (plane : List ℕ) : List ℕ :=
  ((read_data.detectEdges plane).filter (fun p => p.2 == 1)).map Prod.fst

/-- Indices of falling edges (`falling_edges` in the source). -/
def fallingEdges (plane : List ℕ) : List ℕ :=
  ((read_data.detectEdges plane).filter (fun p => p.2 == 0)).map Prod.fst

/-- Deltas of successive entries of an edge-index list
(`l[i] - l[i-1]` for `i = 1, …`). -/
def deltas (l : List ℕ) : List ℤ :=
  List.zipWith (fun (a b : ℕ) => (b : ℤ) - (a : ℤ)) l l.tail

/-- Tier-3 deltas over all edges: a delta between opposite-direction edges is half a
period and is doubled; a delta between same-direction edges is a full period. -/
def mixedDeltas (es : List (ℕ × ℕ)) : List ℤ :=
  List.zipWith
    (fun (a b : ℕ × ℕ) =>
      if b.2 ≠ a.2 then ((b.1 : ℤ) - (a.1 : ℤ)) * 2 else (b.1 : ℤ) - (a.1 : ℤ))
    es es.tail

/-- The tail of `calculate_signal_frequency`: average the period samples, convert to
seconds, and invert; `None` when no periods were collected or the period time is not
positive. -/
def freqFromPeriods (periods : List ℤ) (sample_rate : ℚ) : Option ℚ :=
  if periods.length = 0 then none
  else
    let avg_period_samples : ℚ := ((periods.sum : ℤ) : ℚ) / (periods.length : ℚ)
    let period_time := avg_period_samples / sample_rate
    if 0 < period_time then some (1 / period_time) else none

namespace read_data

/-- `calculate_signal_frequency` of read_data.py: edge detection, then the tiered
period estimation (rising deltas when at least 2 rising edges; overwritten by falling
deltas when fewer than 2 periods were collected and at least 2 falling edges exist;
overwritten by the mixed all-edge deltas when still fewer than 2 periods), then
average/convert/invert.  Each tier consumes at most 20 edges. -/
def calculate_signal_frequency (channel_data : List ℕ) (sample_rate : ℚ) : Option ℚ :=
  if channel_data.length < 2 then none
  else
    let es := detectEdges channel_data
    if es.length < 2 then none
    else
      let periods1 : List ℤ :=
        if 2 ≤ (risingEdges channel_data).length
        then deltas ((risingEdges channel_data).take 20) else []
      let periods2 : List ℤ :=
        if periods1.length < 2 then
          if 2 ≤ (fallingEdges channel_data).length
          then deltas ((fallingEdges channel_data).take 20) else periods1
        else periods1
      let periods : List ℤ :=
        if periods2.length < 2 then mixedDeltas (es.take 20) else periods2
      freqFromPeriods periods sample_rate

end read_data

example : read_data.detectEdges [0, 1, 0, 1, 1, 1, 0] = [(1, 1), (2, 0), (3, 1), (6, 0)] := by
  decide

example : risingEdges [0, 1, 0, 1, 1, 1, 0] = [1, 3] := by decide

example : fallingEdges [0, 1, 0, 1, 1, 1, 0] = [2, 6] := by decide

example : deltas [1, 3] = [2] := by decide

example : mixedDeltas [(1, 1), (2, 0), (3, 1), (6, 0)] = [2, 2, 6] := by decide

theorem deltas_length (l : List ℕ) : (deltas l).length = l.length - 1 := by
  rw [deltas, List.length_zipWith, List.length_tail]
  omega

theorem detectEdges_nil_of_short (plane : List ℕ) (h : plane.length < 2) :
    read_data.detectEdges plane = [] := by
  cases plane with
  | nil => rfl
  | cons x rest =>
    cases rest with
    | nil => rfl
    | cons y r =>
      simp only [List.length_cons] at h
      omega

/-- C8: whenever a plane has fewer than 2 detected edges (constant or almost-constant
signal, including any plane shorter than 2 samples), the frequency is `None` — a
legitimate outcome, not an error. -/
theorem C8_fewer_than_two_edges (plane : List ℕ) (rate : ℚ)
    (h : (read_data.detectEdges plane).length < 2) :
    read_data.calculate_signal_frequency plane rate = none := by
  simp only [read_data.calculate_signal_frequency]
  by_cases hl : plane.length < 2
  · rw [if_pos hl]
  · rw [if_neg hl, if_pos h]

/-- C8 (witness): the single-edge plane `[0,0,0,1,1,1]` yields `frequency = None`. -/
theorem C8_witness :
    read_data.calculate_signal_frequency [0, 0, 0, 1, 1, 1] 100000 = none :=
  C8_fewer_than_two_edges [0, 0, 0, 1, 1, 1] 100000 (by decide)

theorem freqFromPeriods_none_or_pos (periods : List ℤ) (rate : ℚ) :
    freqFromPeriods periods rate = none ∨
    ∃ f, freqFromPeriods periods rate = some f ∧ 0 < f := by
  simp only [freqFromPeriods]
  split_ifs with h1 h2
  · exact Or.inl rfl
  · exact Or.inr ⟨_, rfl, one_div_pos.mpr h2⟩
  · exact Or.inl rfl

/-- C10: for a positive sample rate, `calculate_signal_frequency` returns `None` or a
strictly positive frequency — never zero or negative (the final guard only returns a
frequency when the period time is strictly positive). -/
theorem C10_none_or_positive (plane : List ℕ) (rate : ℚ) (h0 : 0 < rate) :
    read_data.calculate_signal_frequency plane rate = none ∨
    ∃ f, read_data.calculate_signal_frequency plane rate = some f ∧ 0 < f := by
  simp only [read_data.calculate_signal_frequency]
  by_cases h1 : plane.length < 2
  · rw [if_pos h1]
    exact Or.inl rfl
  rw [if_neg h1]
  by_cases h2 : (read_data.detectEdges plane).length < 2
  · rw [if_pos h2]
    exact Or.inl rfl
  rw [if_neg h2]
  exact freqFromPeriods_none_or_pos _ _

/-- C10 (witness): the positivity theorem applied to the plane `[0,1,0,1]` at rate 8. -/
theorem C10_witness :
    read_data.calculate_signal_frequency [0, 1, 0, 1] 8 = none ∨
    ∃ f, read_data.calculate_signal_frequency [0, 1, 0, 1] 8 = some f ∧ 0 < f :=
  C10_none_or_positive [0, 1, 0, 1] 8 (by norm_num)

/-- C4 (amended): the rising-edge tier is used without any fallback only when it
collects at least 2 period deltas, i.e. when the plane contains 3 or more rising
edges; in that case the frequency comes from the deltas between successive rising
edges (up to 20 of them). -/
theorem C4_amended (plane : List ℕ) (rate : ℚ) (h : 3 ≤ (risingEdges plane).length) :
    read_data.calculate_signal_frequency plane rate
      = freqFromPeriods (deltas ((risingEdges plane).take 20)) rate := by
  have hes : 3 ≤ (read_data.detectEdges plane).length :=
    le_trans h (by rw [risingEdges, List.length_map]; exact List.length_filter_le _ _)
  have hlen : ¬ plane.length < 2 := by
    intro hl
    rw [detectEdges_nil_of_short plane hl] at hes
    simp at hes
  have hr2 : 2 ≤ (risingEdges plane).length := by omega
  have hp1len : ¬ (deltas ((risingEdges plane).take 20)).length < 2 := by
    rw [deltas_length, List.length_take]
    omega
  simp only [read_data.calculate_signal_frequency]
  rw [if_neg hlen, if_neg (by omega : ¬ (read_data.detectEdges plane).length < 2),
    if_pos hr2, if_neg hp1len, if_neg hp1len]

/-- C4 (witness): the amended theorem applied to the plane `[0,1,0,1,0,1,0]`, which
has rising edges at indices 1, 3, 5. -/
theorem C4_witness :
    read_data.calculate_signal_frequency [0, 1, 0, 1, 0, 1, 0] 10
      = freqFromPeriods (deltas ((risingEdges [0, 1, 0, 1, 0, 1, 0]).take 20)) 10 :=
  C4_amended [0, 1, 0, 1, 0, 1, 0] 10 (by decide)

/-- C4 (counterexample): the plane `[0,1,0,1,1,1,0]` has exactly 2 rising edges
(at indices 1 and 3), so the claim demands the rising-edge tier (frequency
rate/2 = 5 at rate 10); but the code collects only one rising delta, falls through
to the falling and then the mixed tier, and returns 3 instead. -/
theorem C4_counterexample :
    (risingEdges [0, 1, 0, 1, 1, 1, 0]).length = 2 ∧
    read_data.calculate_signal_frequency [0, 1, 0, 1, 1, 1, 0] 10 = some 3 ∧
    freqFromPeriods (deltas ((risingEdges [0, 1, 0, 1, 1, 1, 0]).take 20)) 10 = some 5 := by
  have hE : read_data.detectEdges [0, 1, 0, 1, 1, 1, 0]
      = [(1, 1), (2, 0), (3, 1), (6, 0)] := by decide
  have hR : risingEdges [0, 1, 0, 1, 1, 1, 0] = [1, 3] := by decide
  have hF : fallingEdges [0, 1, 0, 1, 1, 1, 0] = [2, 6] := by decide
  have htakeR : ([1, 3] : List ℕ).take 20 = [1, 3] := by decide
  have htakeF : ([2, 6] : List ℕ).take 20 = [2, 6] := by decide
  have htakeE : ([(1, 1), (2, 0), (3, 1), (6, 0)] : List (ℕ × ℕ)).take 20
      = [(1, 1), (2, 0), (3, 1), (6, 0)] := by decide
  have hd1 : deltas [1, 3] = [2] := by decide
  have hd2 : deltas [2, 6] = [4] := by decide
  have hm : mixedDeltas [(1, 1), (2, 0), (3, 1), (6, 0)] = [2, 2, 6] := by decide
  refine ⟨by decide, ?_, ?_⟩
  · simp only [read_data.calculate_signal_frequency, hE, hR, hF, htakeR, htakeF,
      htakeE, hd1, hd2, hm]
    norm_num [freqFromPeriods]
  · rw [hR, htakeR, hd1]
    norm_num [freqFromPeriods]

/-- One VCD timestamp block of the export body: the `#time` line and, beneath it, the
`<bit><varname>` change lines recorded as (channel index, new value) pairs. -/
structure VcdBlock where
  time : ℤ
  changes : List (ℕ × ℕ)
deriving DecidableEq

namespace read_data

/-- The per-sample time step of `export_to_vcd`:
`time_step_ps = int(1e12 / sample_rate)` — truncation, not rounding. -/
def vcd_time_step_ps (sample_rate : ℚ) : ℤ := pyInt (1000000000000 / sample_rate)

/-- The change lines written under one later timestamp: every channel whose current
value differs from the last written value (`prev_values[i] != value`), with the new
value.  `prev` entries are `none` for channels that never had a value written. -/
def vcd_changes (prev : List (Option ℕ)) (row : List ℕ) : List (ℕ × ℕ) :=
  ((prev.zip row).enum.filter (fun e => e.2.1 != some e.2.2)).map (fun e => (e.1, e.2.2))

/-- The updated `prev_values` after writing a block: changed channels take the new
value, unchanged channels keep the old one. -/
def vcd_update (prev : List (Option ℕ)) (row : List ℕ) : List (Option ℕ) :=
  (prev.zip row).map (fun pr => if pr.1 != some pr.2 then some pr.2 else pr.1)

/-- The loop over `sample_idx in range(1, samples)` of `export_to_vcd`: a block is
emitted at `#(sample_idx * time_step_ps)` exactly when some channel changed. -/
def vcd_scan (step : ℤ) (channels : List (List ℕ)) :
    List (Option ℕ) → List ℕ → List VcdBlock
  | _, [] => []
  | prev, idx :: rest =>
    let row := channels.map (fun ch => ch.getD idx 0)
    let changes := vcd_changes prev row
    if changes = [] then vcd_scan step channels prev rest
    else ⟨(idx : ℤ) * step, changes⟩ :: vcd_scan step channels (vcd_update prev row) rest

/-- The initial `#0` block: every channel with a nonempty plane writes its first
value (`if len(channels[i]) > 0`). -/
def vcd_init_changes (channels : List (List ℕ)) : List (ℕ × ℕ) :=
  channels.enum.filterMap (fun e => e.2.head?.map (fun v => (e.1, v)))

/-- The body of the VCD document produced by `export_to_vcd`: the unconditional `#0`
baseline block, then one block per changed sample index. -/
def vcd_body (channels : List (List ℕ)) (sample_rate : ℚ) : List VcdBlock :=
  let step := vcd_time_step_ps sample_rate
  let samples := (channels.headD []).length
  VcdBlock.mk 0 (vcd_init_changes channels) ::
    vcd_scan step channels (channels.map List.head?) ((List.range samples).drop 1)

end read_data

theorem vcd_scan_time (step : ℤ) (channels : List (List ℕ)) :
    ∀ (idxs : List ℕ) (prev : List (Option ℕ)) (blk : VcdBlock),
      blk ∈ read_data.vcd_scan step channels prev idxs →
      ∃ i : ℕ, i ∈ idxs ∧ blk.time = (i : ℤ) * step := by
  intro idxs
  induction idxs with
  | nil =>
    intro prev blk h
    simp [read_data.vcd_scan] at h
  | cons idx rest ih =>
    intro prev blk h
    simp only [read_data.vcd_scan] at h
    split_ifs at h with hc
    · rcases ih _ blk h with ⟨i, hi, ht⟩
      exact ⟨i, List.mem_cons_of_mem _ hi, ht⟩
    · rcases List.mem_cons.mp h with rfl | hmem
      · exact ⟨idx, List.mem_cons_self _ _, rfl⟩
      · rcases ih _ blk hmem with ⟨i, hi, ht⟩
        exact ⟨i, List.mem_cons_of_mem _ hi, ht⟩

/-- C6 (amended): the VCD body always begins with the `#0` baseline block carrying
every channel's initial value, regardless of whether anything changes; and every
emitted block's timestamp is `sample_index * int(1e12 / sample_rate)` picoseconds
(truncated, not rounded, step). -/
theorem C6_amended (channels : List (List ℕ)) (rate : ℚ) :
    (read_data.vcd_body channels rate).head?
      = some ⟨0, read_data.vcd_init_changes channels⟩ ∧
    ∀ blk ∈ read_data.vcd_body channels rate,
      ∃ i : ℕ, blk.time = (i : ℤ) * read_data.vcd_time_step_ps rate := by
  constructor
  · rfl
  · intro blk hblk
    simp only [read_data.vcd_body] at hblk
    rcases List.mem_cons.mp hblk with rfl | hmem
    · exact ⟨0, by simp⟩
    · rcases vcd_scan_time _ channels _ _ blk hmem with ⟨i, _, ht⟩
      exact ⟨i, ht⟩

/-- C6 (counterexample): at `sample_rate = 6 MHz`, the code's time step is
`int(1e12/6e6) = 166666` ps (truncation) and the single-channel plane `[0,1]` emits
its change block at `#166666`; the claim's formula `round(1e12/6e6)` gives 166667, so
the claimed sample-to-time mapping is off by one picosecond here. -/
theorem C6_counterexample :
    read_data.vcd_time_step_ps 6000000 = 166666 ∧
    read_data.vcd_body [[0, 1]] 6000000
      = [⟨0, [(0, 0)]⟩, ⟨166666, [(0, 1)]⟩] ∧
    (1 : ℤ) * spec_round ((1000000000000 : ℚ) / 6000000) = 166667 := by
  have hstep : read_data.vcd_time_step_ps 6000000 = 166666 := by
    rw [read_data.vcd_time_step_ps, pyInt_eq_floor _ (by norm_num)]
    norm_num [Int.floor_eq_iff]
  refine ⟨hstep, ?_, ?_⟩
  · simp only [read_data.vcd_body, hstep]
    decide
  · rw [spec_round]
    norm_num [Int.floor_eq_iff]

namespace read_data

/-- How `wait_for_data` terminates: with the full buffer after the quiet settling
window (`Complete`, the `break` after `len(data) >= expected_size`), with a partial
buffer after the no-new-data threshold (`Stalled`), or at the total timeout
(`TimedOut`). -/
inductive RxOutcome where
  | Complete
  | Stalled
  | TimedOut
deriving DecidableEq

end read_data

/-- Concatenated arrivals over a list of polling ticks. -/
def gatherTicks (arr : ℕ → List ℕ) : List ℕ → List ℕ
  | [] => []
  | i :: is => arr i ++ gatherTicks arr is

/-- The bytes waiting on the serial input at tick `t` when every arrival up to tick
`p - 1` has already been read: the arrivals of ticks `p, …, t`. -/
def pend (arr : ℕ → List ℕ) (p t : ℕ) : List ℕ :=
  gatherTicks arr (List.range' p (t + 1 - p))

/-- An arrival schedule that delivers `bs` at tick 0 and nothing afterwards. -/
def singleBurst (bs : List ℕ) : ℕ → List ℕ := fun i => if i = 0 then bs else []

namespace read_data

/-- The polling loop of `wait_for_data`, discretized to the `time.sleep(0.01)` poll
tick (10 ms): the 60 s total timeout is 6000 ticks, the 5 s no-new-data stall
threshold is 500 ticks, and the 200 ms settling wait before declaring completion is
20 ticks.  State: `t` is the current tick, `p` the first unconsumed arrival tick,
`data` the accumulated buffer, `lastData` the tick of the last successful read
(initially the start tick, as in the source).  Per iteration, in source order: check
the total timeout; read and accumulate if bytes are waiting, and if the buffer has
reached the expected size, peek 200 ms ahead and stop `Complete` when nothing more
arrived; otherwise, with a nonempty buffer and more than the stall threshold since
the last read, stop `Stalled`.  The fuel only bounds the recursion and exceeds the
ticks reachable before the timeout. -/
def wait_for_data_loop (arr : ℕ → List ℕ) (expected : ℕ) :
    ℕ → ℕ → ℕ → List ℕ → ℕ → List ℕ × RxOutcome
  | 0, _, _, data, _ => (data, RxOutcome.TimedOut)
  | fuel + 1, t, p, data, lastData =>
    if 6000 < t then (data, RxOutcome.TimedOut)
    else if pend arr p t ≠ [] then
      let data := data ++ pend arr p t
      if expected ≤ data.length then
        if pend arr (t + 1) (t + 20) = [] then (data, RxOutcome.Complete)
        else wait_for_data_loop arr expected fuel (t + 21) (t + 1) data t
      else wait_for_data_loop arr expected fuel (t + 1) (t + 1) data t
    else if data ≠ [] ∧ 500 < t - lastData then (data, RxOutcome.Stalled)
    else wait_for_data_loop arr expected fuel (t + 1) p data lastData

/-- `wait_for_data` of read_data.py over an arrival schedule: run the polling loop
from tick 0 with an empty buffer. -/
def wait_for_data (arr : ℕ → List ℕ) (expected : ℕ) : List ℕ × RxOutcome :=
  wait_for_data_loop arr expected 6002 0 0 [] 0

end read_data

theorem gatherTicks_nil (arr : ℕ → List ℕ) :
    ∀ l : List ℕ, (∀ i ∈ l, arr i = []) → gatherTicks arr l = [] := by
  intro l
  induction l with
  | nil => intro _; rfl
  | cons i is ih =>
    intro h
    rw [gatherTicks, h i (List.mem_cons_self _ _), List.nil_append]
    exact ih (fun j hj => h j (List.mem_cons_of_mem _ hj))

theorem pend_nil (arr : ℕ → List ℕ) (p t : ℕ) (h : ∀ i, p ≤ i → arr i = []) :
    pend arr p t = [] := by
  apply gatherTicks_nil
  intro i hi
  rcases List.mem_range'.mp hi with ⟨k, _, rfl⟩
  exact h _ (by omega)

theorem singleBurst_later (bs : List ℕ) : ∀ i, 1 ≤ i → singleBurst bs i = [] := by
  intro i hi
  rw [singleBurst]
  exact if_neg (by omega)

theorem pend_burst_zero (bs : List ℕ) : pend (singleBurst bs) 0 0 = bs := by
  show gatherTicks (singleBurst bs) (List.range' 0 1) = bs
  rw [show List.range' 0 1 = [0] from rfl, gatherTicks, gatherTicks, List.append_nil]
  rfl

theorem wait_loop_quiet (arr : ℕ → List ℕ) (expected p : ℕ) (data : List ℕ)
    (lastData : ℕ) (hq : ∀ i, p ≤ i → arr i = []) (hd : data ≠ [])
    (hlim : lastData + 501 ≤ 6000) :
    ∀ fuel t, t ≤ lastData + 501 → lastData + 501 - t < fuel →
      read_data.wait_for_data_loop arr expected fuel t p data lastData
        = (data, read_data.RxOutcome.Stalled) := by
  intro fuel
  induction fuel with
  | zero =>
    intro t h1 h2
    omega
  | succ fuel ih =>
    intro t h1 h2
    have hpend : pend arr p t = [] := pend_nil arr p t hq
    rw [read_data.wait_for_data_loop]
    rw [if_neg (by omega : ¬ 6000 < t), if_neg (fun hcon => hcon hpend)]
    by_cases hstall : 500 < t - lastData
    · rw [if_pos ⟨hd, hstall⟩]
    · rw [if_neg (fun hcon => hstall hcon.2)]
      exact ih (t + 1) (by omega) (by omega)

theorem wait_loop_succ (arr : ℕ → List ℕ) (expected fuel t p : ℕ) (data : List ℕ)
    (lastData : ℕ) :
    read_data.wait_for_data_loop arr expected (fuel + 1) t p data lastData
      = if 6000 < t then (data, read_data.RxOutcome.TimedOut)
        else if pend arr p t ≠ [] then
          (if expected ≤ (data ++ pend arr p t).length then
            (if pend arr (t + 1) (t + 20) = []
             then (data ++ pend arr p t, read_data.RxOutcome.Complete)
             else read_data.wait_for_data_loop arr expected fuel (t + 21) (t + 1)
               (data ++ pend arr p t) t)
           else read_data.wait_for_data_loop arr expected fuel (t + 1) (t + 1)
             (data ++ pend arr p t) t)
        else if data ≠ [] ∧ 500 < t - lastData then (data, read_data.RxOutcome.Stalled)
        else read_data.wait_for_data_loop arr expected fuel (t + 1) p data lastData := rfl

/-- C3: over a burst arrival schedule, the receiver behaves as claimed.  If exactly
`expected_size` bytes arrive and nothing more arrives during the 200 ms settling
window, `wait_for_data` terminates `Complete` with the full buffer; if at least one
but fewer than `expected_size` bytes arrive and nothing more ever arrives, it runs
past the 5 s no-new-data threshold and terminates `Stalled`, returning the partial
buffer rather than raising. -/
theorem C3_receiver (N : ℕ) (bs cs : List ℕ) (hb : bs.length = N) (hN : 0 < N)
    (hc1 : 0 < cs.length) (hc2 : cs.length < N) :
    read_data.wait_for_data (singleBurst bs) N = (bs, read_data.RxOutcome.Complete) ∧
    read_data.wait_for_data (singleBurst cs) N = (cs, read_data.RxOutcome.Stalled) := by
  constructor
  · rw [read_data.wait_for_data, show (6002 : ℕ) = 6001 + 1 from rfl, wait_loop_succ]
    have hbne : bs ≠ [] := by
      intro hcon
      rw [hcon] at hb
      simp at hb
      omega
    rw [pend_burst_zero bs, List.nil_append]
    rw [if_neg (by omega : ¬ (6000 : ℕ) < 0), if_pos hbne,
      if_pos (by omega : N ≤ bs.length),
      if_pos (pend_nil _ _ _ (fun i hi => singleBurst_later bs i (by omega)))]
  · rw [read_data.wait_for_data, show (6002 : ℕ) = 6001 + 1 from rfl, wait_loop_succ]
    have hcne : cs ≠ [] := List.length_pos.mp hc1
    rw [pend_burst_zero cs, List.nil_append]
    rw [if_neg (by omega : ¬ (6000 : ℕ) < 0), if_pos hcne,
      if_neg (by omega : ¬ N ≤ cs.length)]
    exact wait_loop_quiet (singleBurst cs) N (0 + 1) cs 0
      (fun i hi => singleBurst_later cs i (by omega)) hcne (by omega)
      6001 (0 + 1) (by omega) (by omega)

/-- C3 (witness): the receiver theorem at expected size 3, with the full burst
`[1,2,3]` completing and the short burst `[7]` stalling. -/
theorem C3_witness :
    read_data.wait_for_data (singleBurst [1, 2, 3]) 3
      = ([1, 2, 3], read_data.RxOutcome.Complete) ∧
    read_data.wait_for_data (singleBurst [7]) 3
      = ([7], read_data.RxOutcome.Stalled) :=
  ⟨(C3_receiver 3 [1, 2, 3] [7] rfl (by decide) (by decide) (by decide)).1,
   (C3_receiver 3 [1, 2, 3] [7] rfl (by decide) (by decide) (by decide)).2⟩
